import Mathlib

set_option maxHeartbeats 1000000

/-!
Shallow embedding of `src/simple_calculator.cpp` — an interactive arithmetic
calculator with a token stream, a recursive-descent parser/evaluator, a named
environment (variables and constants), a precision setting, and a line-based
persistence format for the environment.

Modelling conventions:
* C++ `double` is modelled as `ℚ` with exact arithmetic; the claims under
  study exercise values and comparisons (`d == 0`, small integer literals,
  `pow(2,10) = 1024`) on which IEEE double arithmetic is exact.
* The character-level lexer is not under study; parser functions consume a
  pre-lexed `List Token` (the `input` of a `Token_stream`).
* C++ exceptions (`error(...)` / `throw runtime_error`) are modelled with
  `Except String`; global mutable state (`names`, the token buffer) is
  threaded explicitly, and is returned alongside the `Except` result so that
  mutations performed before a throw are visible, exactly as in C++.
* The unary `<cmath>` functions (`sin`, `cos`, ...) are kept abstract: a
  function token carries an `Option (ℚ → ℚ)` just as the C++ `Token` carries
  a possibly-null `double(*)(double)`; `pow` carries the null sentinel.
-/

/-- Mirrors `struct Token` (src lines 125–180): a tagged union of statement
markers, numeric literals, identifiers, single characters, function references
(name plus possibly-null unary function pointer) and keyword markers. -/
inductive Token where
  | noneTok
  | quitTok
  | printTok
  | number (value : ℚ)
  | nameTok (s : String)
  | constTok
  | charTok (symbol : Char)
  | helpTok
  | fnTok (s : String) (f : Option (ℚ → ℚ))
  | precisionTok
  | setPrecisionTok
  | showEnvTok
  | saveEnvTok
  | loadEnvTok

/-- Mirrors `Token::is_symbol` (src line 176). -/
def Token.is_symbol (t : Token) (c : Char) : Bool :=
  match t with
  | .charTok c2 => c2 = c
  | _ => false

/-- Mirrors `Token::is_function` (src line 179). -/
def Token.is_function (t : Token) : Bool :=
  match t with
  | .fnTok _ _ => true
  | _ => false

/-- The `name` field of a token (empty for kinds that leave it default). -/
def Token.tokName (t : Token) : String :=
  match t with
  | .nameTok s => s
  | .fnTok s _ => s
  | _ => ""

/-- The `function` field of a token (`Option.none` models `nullptr`). -/
def Token.tokFun (t : Token) : Option (ℚ → ℚ) :=
  match t with
  | .fnTok _ f => f
  | _ => Option.none

/-- Mirrors `class Token_stream` (src lines 182–192): a FIFO `queue<Token>`
buffer in front of the character source; the source is modelled as the
pre-lexed list `input`. -/
structure Token_stream where
  buffer : List Token
  input : List Token

/-- Mirrors `Token_stream::get` (src lines 243–250) restricted to its buffer
behaviour plus the pre-lexed input: if the buffer is non-empty, pop its front;
otherwise take the next lexed token from the input.  An exhausted input has no
counterpart in the interactive program (`cin` blocks) and yields `none`. -/
def Token_stream.get (ts : Token_stream) : Option (Token × Token_stream) :=
  match ts with
  | ⟨t :: buf, inp⟩ => some (t, ⟨buf, inp⟩)
  | ⟨[], t :: inp⟩ => some (t, ⟨[], inp⟩)
  | ⟨[], []⟩ => Option.none

/-- Mirrors `Token_stream::unget` (src line 190): `buffer.push(t)` — a
`std::queue` push appends at the BACK of the pending queue. -/
def Token_stream.unget (ts : Token_stream) (t : Token) : Token_stream :=
  ⟨ts.buffer ++ [t], ts.input⟩

/-- Mirrors `struct Value` (src lines 351–362). -/
structure Value where
  name : String
  value : ℚ
  is_const : Bool
deriving DecidableEq, Repr

/-- The global `map<string,Value> names` (src line 364), modelled as an
association list kept sorted by key (the iteration order of a `std::map`). -/
def EnvT : Type := List (String × Value)

instance : DecidableEq EnvT := inferInstanceAs (DecidableEq (List (String × Value)))

/-- `std::map` lookup. -/
def envLookup : EnvT → String → Option Value
  | [], _ => Option.none
  | (k, v) :: rest, s => if s = k then some v else envLookup rest s

/-- Lexicographic comparison of character lists (the `std::string`
`operator<` a `std::map<string, ...>` orders its keys by). -/
def charListLt : List Char → List Char → Bool
  | [], [] => false
  | [], _ :: _ => true
  | _ :: _, [] => false
  | a :: as, b :: bs =>
    if a.toNat < b.toNat then true
    else if b.toNat < a.toNat then false
    else charListLt as bs

/-- `std::string` `operator<`. -/
def strLt (a b : String) : Bool :=
  charListLt a.data b.data

/-- `std::map` insert-or-assign (`names[s] = ...`), keeping the key order. -/
def mapInsert : EnvT → String → Value → EnvT
  | [], k, v => [(k, v)]
  | (k2, v2) :: rest, k, v =>
    if strLt k k2 then (k, v) :: (k2, v2) :: rest
    else if k = k2 then (k, v) :: rest
    else (k2, v2) :: mapInsert rest k v

/-- In-place update `names[s].value = d` for an existing key (`std::map`
keys are unique, so the first hit is the entry). -/
def envUpdateValue : EnvT → String → ℚ → EnvT
  | [], _, _ => []
  | (k2, v2) :: rest, s, d =>
    if k2 = s then (k2, ⟨v2.name, d, v2.is_const⟩) :: rest
    else (k2, v2) :: envUpdateValue rest s d

/-- Mirrors `get_value` (src lines 367–371). -/
def get_value (env : EnvT) (s : String) : Except String ℚ :=
  match envLookup env s with
  | some v => .ok v.value
  | Option.none => .error ("get: undefined name " ++ s)

/-- Mirrors `set_value` (src lines 373–381) FAITHFULLY, including the missing
early return: after `names[s].value = d;` control falls through to
`error("set: undefined name ", s)`, so this function never succeeds — but the
value update performed before the throw persists, as in the C++ global map. -/
def set_value (env : EnvT) (s : String) (d : ℚ) : EnvT × Except String Unit :=
  if (envLookup env s).isSome then
    match envLookup env s with
    | some v =>
      if v.is_const then (env, .error ("set: const name " ++ s))
      else (envUpdateValue env s d, .error ("set: undefined name " ++ s))
    | Option.none => (env, .error ("set: undefined name " ++ s))
  else (env, .error ("set: undefined name " ++ s))

/-- Mirrors `is_constant` (src lines 383–389). -/
def is_constant (env : EnvT) (s : String) : Bool :=
  match envLookup env s with
  | some v => v.is_const
  | Option.none => false

/-- Mirrors `is_declared` (src line 391). -/
def is_declared (env : EnvT) (s : String) : Bool :=
  (envLookup env s).isSome

/-- Mirrors `define_name` (src lines 393–394): `names[s] = Value(s,d,constant)`. -/
def define_name (env : EnvT) (s : String) (d : ℚ) (constant : Bool) : EnvT :=
  mapInsert env s ⟨s, d, constant⟩

/-- Model of `std::pow` on the exactly representable cases: for an integer
exponent `b` the IEEE result of `pow` on exactly representable inputs agrees
with the rational power (e.g. `pow(2,10) = 1024` exactly); a non-integer
exponent has no rational counterpart and is abstracted as `0` (never reached
by the claims under study). -/
def powQ (a b : ℚ) : ℚ :=
  if b.den = 1 then a ^ b.num else 0

/-- Truncation toward zero, as in `static_cast<int>` / C `fmod` quotient. -/
def truncQ (q : ℚ) : ℤ :=
  if 0 ≤ q then ⌊q⌋ else ⌈q⌉

/-- Model of `std::fmod`: remainder with the sign of the dividend,
`fmod(a, b) = a - b * trunc(a / b)`. -/
def fmodQ (a b : ℚ) : ℚ :=
  a - b * (truncQ (a / b) : ℚ)

/-- Error raised when the parser runs out of fuel; the C++ functions recurse
without a bound, and every theorem below supplies enough fuel for this case
to be unreachable. -/
def fuelMsg : String := "out of fuel"

/-- Error raised when the token source is exhausted; interactive `cin` never
is, and no theorem below reaches this case. -/
def eofMsg : String := "end of input"

mutual

/-- Mirrors `function_name` (src lines 400–424): `FNAME ( expression )` calls
the token's unary function (null pointer ⇒ "needs two arguments");
`FNAME ( expression , expression )` is legal only for `pow` (other names ⇒
"needs only one argument"). -/
def function_name (fuel : ℕ) (env : EnvT) (ts : Token_stream) :
    Token_stream × Except String ℚ :=
  match fuel with
  | 0 => (ts, .error fuelMsg)
  | fuel + 1 =>
    match ts.get with
    | Option.none => (ts, .error eofMsg)
    | some (t, ts1) =>
      if ¬ t.is_function then (ts1, .error "function name expected")
      else
        match ts1.get with
        | Option.none => (ts1, .error eofMsg)
        | some (tt, ts2) =>
          if ¬ tt.is_symbol '(' then (ts2, .error "\x27(\x27 expected")
          else
            match expression fuel env ts2 with
            | (ts3, .error e) => (ts3, .error e)
            | (ts3, .ok d) =>
              match ts3.get with
              | Option.none => (ts3, .error eofMsg)
              | some (tt2, ts4) =>
                if tt2.is_symbol ')' then
                  match t.tokFun with
                  | some f => (ts4, .ok (f d))
                  | Option.none => (ts4, .error (t.tokName ++ " needs two arguments"))
                else if ¬ tt2.is_symbol ',' then (ts4, .error "\x27)\x27 expected")
                else
                  match expression fuel env ts4 with
                  | (ts5, .error e) => (ts5, .error e)
                  | (ts5, .ok dd) =>
                    match ts5.get with
                    | Option.none => (ts5, .error eofMsg)
                    | some (tt3, ts6) =>
                      if tt3.is_symbol ')' then
                        if t.tokName = "pow" then (ts6, .ok (powQ d dd))
                        else (ts6, .error (t.tokName ++ " needs only one argument"))
                      else (ts6, .error "\x27)\x27 expected")

/-- Mirrors `primary` (src lines 426–445): function call, parenthesised
expression, unary `-`/`+`, numeric literal, or name lookup. -/
def primary (fuel : ℕ) (env : EnvT) (ts : Token_stream) :
    Token_stream × Except String ℚ :=
  match fuel with
  | 0 => (ts, .error fuelMsg)
  | fuel + 1 =>
    match ts.get with
    | Option.none => (ts, .error eofMsg)
    | some (t, ts1) =>
      if t.is_function then function_name fuel env (ts1.unget t)
      else
        match t with
        | .charTok c =>
          if c = '(' then
            match expression fuel env ts1 with
            | (ts2, .error e) => (ts2, .error e)
            | (ts2, .ok d) =>
              match ts2.get with
              | Option.none => (ts2, .error eofMsg)
              | some (t2, ts3) =>
                if ¬ t2.is_symbol ')' then (ts3, .error "\x27(\x27 expected")
                else (ts3, .ok d)
          else if c = '-' then
            match primary fuel env ts1 with
            | (ts2, .ok d) => (ts2, .ok (-d))
            | (ts2, .error e) => (ts2, .error e)
          else if c = '+' then primary fuel env ts1
          else (ts1, .error "primary expected")
        | .number v => (ts1, .ok v)
        | .nameTok s => (ts1, get_value env s)
        | _ => (ts1, .error "primary expected")

/-- Mirrors `term` (src lines 447–468): a primary followed by the `*` `/` `%`
loop (`termLoop`). -/
def term (fuel : ℕ) (env : EnvT) (ts : Token_stream) :
    Token_stream × Except String ℚ :=
  match fuel with
  | 0 => (ts, .error fuelMsg)
  | fuel + 1 =>
    match primary fuel env ts with
    | (ts1, .error e) => (ts1, .error e)
    | (ts1, .ok left) => termLoop fuel env left ts1

/-- The `while(true)` loop of `term` (src lines 450–467): `*` multiplies,
`/` and `%` first test the right operand for exactly `0` ("divide by zero"),
any other token is ungot and `left` is returned. -/
def termLoop (fuel : ℕ) (env : EnvT) (left : ℚ) (ts : Token_stream) :
    Token_stream × Except String ℚ :=
  match fuel with
  | 0 => (ts, .error fuelMsg)
  | fuel + 1 =>
    match ts.get with
    | Option.none => (ts, .error eofMsg)
    | some (t, ts1) =>
      if t.is_symbol '*' then
        match primary fuel env ts1 with
        | (ts2, .error e) => (ts2, .error e)
        | (ts2, .ok d) => termLoop fuel env (left * d) ts2
      else if t.is_symbol '/' then
        match primary fuel env ts1 with
        | (ts2, .error e) => (ts2, .error e)
        | (ts2, .ok d) =>
          if d = 0 then (ts2, .error "divide by zero")
          else termLoop fuel env (left / d) ts2
      else if t.is_symbol '%' then
        match primary fuel env ts1 with
        | (ts2, .error e) => (ts2, .error e)
        | (ts2, .ok d) =>
          if d = 0 then (ts2, .error "divide by zero")
          else termLoop fuel env (fmodQ left d) ts2
      else (ts1.unget t, .ok left)

/-- Mirrors `expression` (src lines 470–480): a term followed by the `+` `-`
loop (`exprLoop`). -/
def expression (fuel : ℕ) (env : EnvT) (ts : Token_stream) :
    Token_stream × Except String ℚ :=
  match fuel with
  | 0 => (ts, .error fuelMsg)
  | fuel + 1 =>
    match term fuel env ts with
    | (ts1, .error e) => (ts1, .error e)
    | (ts1, .ok left) => exprLoop fuel env left ts1

/-- The `while(true)` loop of `expression` (src lines 473–479). -/
def exprLoop (fuel : ℕ) (env : EnvT) (left : ℚ) (ts : Token_stream) :
    Token_stream × Except String ℚ :=
  match fuel with
  | 0 => (ts, .error fuelMsg)
  | fuel + 1 =>
    match ts.get with
    | Option.none => (ts, .error eofMsg)
    | some (t, ts1) =>
      if t.is_symbol '+' then
        match term fuel env ts1 with
        | (ts2, .error e) => (ts2, .error e)
        | (ts2, .ok d) => exprLoop fuel env (left + d) ts2
      else if t.is_symbol '-' then
        match term fuel env ts1 with
        | (ts2, .error e) => (ts2, .error e)
        | (ts2, .ok d) => exprLoop fuel env (left - d) ts2
      else (ts1.unget t, .ok left)

end

/-- The global evaluator state seen by statements: the token stream and the
name environment (`Token_stream ts` and `map<string,Value> names`). -/
structure CalcState where
  ts : Token_stream
  env : EnvT

/-- Mirrors `assign` (src lines 482–496): `NAME = expression`; a const name
fails up front; a declared name goes through `set_value` (which, as in the
source, always throws after updating), an undeclared one through
`define_name`. -/
def assign (fuel : ℕ) (st : CalcState) : CalcState × Except String ℚ :=
  match st.ts.get with
  | Option.none => (st, .error eofMsg)
  | some (t, ts1) =>
    match t with
    | .nameTok name =>
      if is_constant st.env name then
        ({st with ts := ts1}, .error (name ++ " constant cannot be modified"))
      else
        match ts1.get with
        | Option.none => ({st with ts := ts1}, .error eofMsg)
        | some (t2, ts2) =>
          if ¬ t2.is_symbol '=' then
            ({st with ts := ts2}, .error ("= missing in assign of " ++ name))
          else
            match expression fuel st.env ts2 with
            | (ts3, .error e) => ({st with ts := ts3}, .error e)
            | (ts3, .ok d) =>
              if is_declared st.env name then
                match set_value st.env name d with
                | (env2, .ok _) => (⟨ts3, env2⟩, .ok d)
                | (env2, .error e) => (⟨ts3, env2⟩, .error e)
              else
                (⟨ts3, define_name st.env name d false⟩, .ok d)
    | _ => ({st with ts := ts1}, .error "name expected in assign")

/-- Mirrors `constant_assign` (src lines 498–509): `const NAME = expression`;
an already-declared name fails ("has already been defined"), otherwise the
name is defined const. -/
def constant_assign (fuel : ℕ) (st : CalcState) : CalcState × Except String ℚ :=
  match st.ts.get with
  | Option.none => (st, .error eofMsg)
  | some (t, ts1) =>
    match t with
    | .nameTok name =>
      if is_declared st.env name then
        ({st with ts := ts1}, .error (name ++ " has already been defined"))
      else
        match ts1.get with
        | Option.none => ({st with ts := ts1}, .error eofMsg)
        | some (t2, ts2) =>
          if ¬ t2.is_symbol '=' then
            ({st with ts := ts2}, .error ("= missing in assign of " ++ name))
          else
            match expression fuel st.env ts2 with
            | (ts3, .error e) => ({st with ts := ts3}, .error e)
            | (ts3, .ok d) =>
              (⟨ts3, define_name st.env name d true⟩, .ok d)
    | _ => ({st with ts := ts1}, .error "name expected in const assign")

/-- Mirrors `statement` (src lines 733–749): dispatch on the first token;
a leading name uses one extra token of lookahead (`=` ⇒ `assign`, otherwise
`expression`), both tokens being pushed back — in FIFO order — first. -/
def statement (fuel : ℕ) (st : CalcState) : CalcState × Except String ℚ :=
  match st.ts.get with
  | Option.none => (st, .error eofMsg)
  | some (t, ts1) =>
    match t with
    | .constTok => constant_assign fuel {st with ts := ts1}
    | .nameTok _ =>
      match ts1.get with
      | Option.none => ({st with ts := ts1}, .error eofMsg)
      | some (tt, ts2) =>
        if tt.is_symbol '=' then
          assign fuel {st with ts := (ts2.unget t).unget tt}
        else
          match expression fuel st.env ((ts2.unget t).unget tt) with
          | (ts3, r) => ({st with ts := ts3}, r)
    | _ =>
      match expression fuel st.env (ts1.unget t) with
      | (ts3, r) => ({st with ts := ts3}, r)

/-- Mirrors `set_precision` (src lines 511–521): reads a number token, casts
it to `int` (truncation), rejects values outside `[0, 20]` leaving the
current precision unchanged, and otherwise installs the new precision. -/
def set_precision_cmd (ts : Token_stream) (current_precision : ℤ) :
    Token_stream × ℤ × Except String Unit :=
  match ts.get with
  | Option.none => (ts, current_precision, .error eofMsg)
  | some (t, ts1) =>
    match t with
    | .number v =>
      let digits : ℤ := truncQ v
      if digits < 0 ∨ 20 < digits then
        (ts1, current_precision, .error "Precision must be between 0 and 20")
      else
        (ts1, digits, .ok ())
    | _ => (ts1, current_precision, .error "Expected a number after \x27set precision\x27")

/-! ### Specification-side grammar of pure arithmetic expressions (for C8)

The following mutually inductive family mirrors the *spec's* grammar
(`expression := term (('+'|'-') term)*`, `term := primary (('*'|'/'|'%')
primary)*`, `primary := NUMBER | '(' expression ')' | '-' primary |
'+' primary`), and `denoE` is the spec's semantics: standard arithmetic with
`* / %` binding tighter than `+ -` and same-precedence operators applied left
to right. -/

/-- Multiplicative operator of the spec grammar. -/
inductive MOp where
  | mul
  | div
  | mod
deriving DecidableEq, Repr

/-- Additive operator of the spec grammar. -/
inductive AOp where
  | add
  | sub
deriving DecidableEq, Repr

/-- The character lexeme of a multiplicative operator. -/
def MOp.lexeme : MOp → Char
  | .mul => '*'
  | .div => '/'
  | .mod => '%'

/-- The character lexeme of an additive operator. -/
def AOp.lexeme : AOp → Char
  | .add => '+'
  | .sub => '-'

/-- Standard meaning of a multiplicative operator (`%` is `fmod`). -/
def MOp.apply : MOp → ℚ → ℚ → ℚ
  | .mul, a, b => a * b
  | .div, a, b => a / b
  | .mod, a, b => fmodQ a b

/-- Standard meaning of an additive operator. -/
def AOp.apply : AOp → ℚ → ℚ → ℚ
  | .add, a, b => a + b
  | .sub, a, b => a - b

mutual

/-- Spec grammar: `primary := NUMBER | '(' expression ')' | '-' primary | '+' primary`. -/
inductive PExp where
  | num (q : ℚ)
  | paren (e : EExp)
  | neg (p : PExp)
  | pos (p : PExp)

/-- Spec grammar: the `(('*'|'/'|'%') primary)*` tail of a term. -/
inductive TRest where
  | nil
  | cons (op : MOp) (p : PExp) (r : TRest)

/-- Spec grammar: `term := primary (('*'|'/'|'%') primary)*`. -/
inductive TExp where
  | mk (p : PExp) (r : TRest)

/-- Spec grammar: the `(('+'|'-') term)*` tail of an expression. -/
inductive ERest where
  | nil
  | cons (op : AOp) (t : TExp) (r : ERest)

/-- Spec grammar: `expression := term (('+'|'-') term)*`. -/
inductive EExp where
  | mk (t : TExp) (r : ERest)

end

mutual

/-- Token string of a primary. -/
def flatP : PExp → List Token
  | .num q => [Token.number q]
  | .paren e => Token.charTok '(' :: (flatE e ++ [Token.charTok ')'])
  | .neg p => Token.charTok '-' :: flatP p
  | .pos p => Token.charTok '+' :: flatP p

/-- Token string of a term tail. -/
def flatTR : TRest → List Token
  | .nil => []
  | .cons op p r => Token.charTok op.lexeme :: (flatP p ++ flatTR r)

/-- Token string of a term. -/
def flatT : TExp → List Token
  | .mk p r => flatP p ++ flatTR r

/-- Token string of an expression tail. -/
def flatER : ERest → List Token
  | .nil => []
  | .cons op t r => Token.charTok op.lexeme :: (flatT t ++ flatER r)

/-- Token string of an expression. -/
def flatE : EExp → List Token
  | .mk t r => flatT t ++ flatER r

end

mutual

/-- Spec semantics of a primary. -/
def denoP : PExp → ℚ
  | .num q => q
  | .paren e => denoE e
  | .neg p => -denoP p
  | .pos p => denoP p

/-- Spec semantics of a term tail, folded left-to-right from `acc`. -/
def denoTR : ℚ → TRest → ℚ
  | acc, .nil => acc
  | acc, .cons op p r => denoTR (op.apply acc (denoP p)) r

/-- Spec semantics of a term. -/
def denoT : TExp → ℚ
  | .mk p r => denoTR (denoP p) r

/-- Spec semantics of an expression tail, folded left-to-right from `acc`. -/
def denoER : ℚ → ERest → ℚ
  | acc, .nil => acc
  | acc, .cons op t r => denoER (op.apply acc (denoT t)) r

/-- Spec semantics of an expression. -/
def denoE : EExp → ℚ
  | .mk t r => denoER (denoT t) r

end

mutual

/-- No division or modulo by zero occurs when evaluating the primary. -/
def safeP : PExp → Bool
  | .num _ => true
  | .paren e => safeE e
  | .neg p => safeP p
  | .pos p => safeP p

/-- No division or modulo by zero occurs when evaluating the term tail. -/
def safeTR : TRest → Bool
  | .nil => true
  | .cons op p r =>
    (match op with
     | .mul => true
     | .div => decide (denoP p ≠ 0)
     | .mod => decide (denoP p ≠ 0)) && safeP p && safeTR r

/-- No division or modulo by zero occurs when evaluating the term. -/
def safeT : TExp → Bool
  | .mk p r => safeP p && safeTR r

/-- No division or modulo by zero occurs when evaluating the expression tail. -/
def safeER : ERest → Bool
  | .nil => true
  | .cons _ t r => safeT t && safeER r

/-- No division or modulo by zero occurs when evaluating the expression. -/
def safeE : EExp → Bool
  | .mk t r => safeT t && safeER r

end

mutual

/-- Fuel bound for parsing a primary. -/
def sizeP : PExp → ℕ
  | .num _ => 1
  | .paren e => sizeE e + 2
  | .neg p => sizeP p + 1
  | .pos p => sizeP p + 1

/-- Fuel bound for parsing a term tail. -/
def sizeTR : TRest → ℕ
  | .nil => 1
  | .cons _ p r => sizeP p + sizeTR r + 2

/-- Fuel bound for parsing a term. -/
def sizeT : TExp → ℕ
  | .mk p r => sizeP p + sizeTR r + 2

/-- Fuel bound for parsing an expression tail. -/
def sizeER : ERest → ℕ
  | .nil => 1
  | .cons _ t r => sizeT t + sizeER r + 2

/-- Fuel bound for parsing an expression. -/
def sizeE : EExp → ℕ
  | .mk t r => sizeT t + sizeER r + 2

end

/-! ### Persistence codec (save_env / load_env) -/

/-- `p` decimal digits of `m` (most significant first); by construction the
result always has exactly `p` digits, as `std::fixed` output does. -/
def fixedDigitChars (m : ℕ) : ℕ → List Char
  | 0 => []
  | p + 1 => fixedDigitChars (m / 10) p ++ [Nat.digitChar (m % 10)]

/-- The magnitude of `q`, scaled by `10^p` and rounded to the nearest integer
— the digit string an ostream in `fixed` mode with precision `p` prints. -/
def roundMag (q : ℚ) (p : ℕ) : ℕ :=
  (round (|q| * 10 ^ p)).toNat

/-- Integer part (with sign) of the fixed-point rendering of `q`. -/
def intStr (q : ℚ) (p : ℕ) : String :=
  (if q < 0 then "-" else "") ++ toString (roundMag q p / 10 ^ p)

/-- Fractional digits of the fixed-point rendering of `q` at precision `p`. -/
def fracStr (q : ℚ) (p : ℕ) : String :=
  String.mk (fixedDigitChars (roundMag q p % 10 ^ p) p)

/-- Fixed-point rendering of a double at precision `p`, as produced by
`out.setf(ios::fixed); out.precision(p); out << q` (src lines 599–600):
never scientific, exactly `p` fractional digits, no decimal point when
`p = 0`. -/
def formatFixed (q : ℚ) (p : ℕ) : String :=
  intStr q p ++ (if p = 0 then "" else "." ++ fracStr q p)

/-- The line `save_env` writes for one environment entry (src line 605):
`<name> = <value> is_const = <0|1>` (`operator<<` prints `bool` as 0/1). -/
def entryLine (save_precision : ℕ) (kv : String × Value) : String :=
  kv.1 ++ " = " ++ formatFixed kv.2.value save_precision ++ " is_const = " ++
    (if kv.2.is_const then "1" else "0")

/-- Mirrors the file-writing part of `save_env` (src lines 551–610): an empty
environment is an error; otherwise one `Precision = <p>` header line followed
by one line per entry in the map's iteration order.  The interactive
precision menu (presets 6/12/19) is REPL glue; its chosen precision is the
`save_precision` argument. -/
def save_env_lines (env : EnvT) (save_precision : ℕ) : Except String (List String) :=
  if env = [] then .error "\nsave env: No variables or constants to save.\n"
  else .ok (("Precision = " ++ toString save_precision) :: env.map (entryLine save_precision))

/-- Splits a character list into maximal whitespace-free words (`acc` holds
the current word, reversed). -/
def wordsAux : List Char → List Char → List String
  | [], acc => if acc = [] then [] else [String.mk acc.reverse]
  | c :: cs, acc =>
    if c.isWhitespace then
      (if acc = [] then wordsAux cs [] else String.mk acc.reverse :: wordsAux cs [])
    else wordsAux cs (c :: acc)

/-- The whitespace-separated fields of a line, as `istringstream` extraction
sees them. -/
def lineWords (line : String) : List String :=
  wordsAux line.data []

/-- An `istringstream` being consumed field by field: remaining words plus
the fail flag.  Once failed, every further extraction fails. -/
structure IStream where
  words : List String
  failed : Bool

/-- `stream >> (string&)`: next whitespace-delimited word, or set the fail
flag (the C++ target string is left empty). -/
def extractStr : IStream → IStream × String
  | ⟨_, true⟩ => (⟨[], true⟩, "")
  | ⟨[], false⟩ => (⟨[], true⟩, "")
  | ⟨w :: ws, false⟩ => (⟨ws, false⟩, w)

/-- Value of a (possibly empty) run of decimal digits. -/
def segVal (cs : List Char) : Option ℕ :=
  if ¬ cs.all Char.isDigit then Option.none
  else some (cs.foldl (fun acc c => acc * 10 + (c.toNat - '0'.toNat)) 0)

/-- Splits a character list at every `'.'`. -/
def splitOnDot : List Char → List (List Char)
  | [] => [[]]
  | c :: cs =>
    if c = '.' then [] :: splitOnDot cs
    else
      match splitOnDot cs with
      | [] => [[c]]
      | w :: ws => (c :: w) :: ws

/-- Parse an unsigned decimal numeral `digits`, `digits.digits`, `.digits`
or `digits.`. -/
def parsePosRat? (cs : List Char) : Option ℚ :=
  match splitOnDot cs with
  | [a] =>
    if a = [] then Option.none
    else (segVal a).map (fun n => (n : ℚ))
  | [a, b] =>
    if a = [] ∧ b = [] then Option.none
    else
      match segVal a, segVal b with
      | some x, some y => some ((x : ℚ) + (y : ℚ) / 10 ^ b.length)
      | _, _ => Option.none
  | _ => Option.none

/-- Parse a word as a (possibly signed) decimal numeral, the lexeme shape
`operator>>(double&)` accepts in the saved files. -/
def parseRat? (w : String) : Option ℚ :=
  match w.data with
  | '-' :: rest => (parsePosRat? rest).map Neg.neg
  | cs => parsePosRat? cs

/-- `stream >> (double&)`: parse the next word as a numeral; a missing or
malformed word sets the fail flag and leaves `0` in the model (the C++
variable keeps an indeterminate value — the claims below depend only on the
fail behaviour, not on that value). -/
def extractQ : IStream → IStream × ℚ
  | ⟨_, true⟩ => (⟨[], true⟩, 0)
  | ⟨[], false⟩ => (⟨[], true⟩, 0)
  | ⟨w :: ws, false⟩ =>
    match parseRat? w with
    | some v => (⟨ws, false⟩, v)
    | Option.none => (⟨ws, true⟩, 0)

/-- `stream >> (int&)`: like `extractQ` but for the integer `is_const`
field. -/
def extractInt : IStream → IStream × ℤ
  | ⟨_, true⟩ => (⟨[], true⟩, 0)
  | ⟨[], false⟩ => (⟨[], true⟩, 0)
  | ⟨w :: ws, false⟩ =>
    match parseRat? w with
    | some v => if v.den = 1 then (⟨ws, false⟩, v.num) else (⟨ws, true⟩, 0)
    | Option.none => (⟨ws, true⟩, 0)

/-- The three conflict resolutions `load_env` offers (src lines 694–720). -/
inductive Resolution where
  | keep
  | overwrite
  | rename
deriving DecidableEq, Repr

/-- The information shown at a load conflict: existing entry and incoming
file entry (src lines 675–677). -/
structure ConflictInfo where
  name : String
  existing : Value
  fileValue : ℚ
  fileConst : Bool

/-- Candidate number `k` in the rename sequence `x_file`, `x_file1`,
`x_file2`, … (src lines 708–714: `_file` with the attempt count appended
from the second attempt on). -/
def renameCandidate (name : String) (k : ℕ) : String :=
  name ++ "_file" ++ (if k = 0 then "" else toString k)

/-- The `do … while (is_declared(new_name))` search for a fresh name.  The
fuel argument only bounds the loop for totality; `env.length + 1` attempts
always suffice to leave a finite environment. -/
def freshFrom (env : EnvT) (name : String) : ℕ → ℕ → String
  | 0, k => renameCandidate name k
  | fuel + 1, k =>
    let c := renameCandidate name k
    if is_declared env c then freshFrom env name fuel (k + 1) else c

/-- First undeclared name in the rename sequence. -/
def fresh_name (env : EnvT) (name : String) : String :=
  freshFrom env name (env.length + 1) 0

/-- One conflict resolution step of `load_env` (src lines 694–720):
keep — no change; overwrite — `names[name] = Value(name, value, is_const)`;
rename — define the incoming value under the first undeclared name of the
rename sequence. -/
def resolve_conflict (env : EnvT) (name : String) (value : ℚ) (file_const : Bool) :
    Resolution → EnvT
  | .keep => env
  | .overwrite => mapInsert env name ⟨name, value, file_const⟩
  | .rename => define_name env (fresh_name env name) value file_const

/-- One body line of `load_env` (src lines 658–727): extract
`name = value is_const = <int>` positionally (the `=` fields and the
`is_const` label are read but never checked); a line whose first extraction
produces nothing is skipped via `if (name.empty()) continue`; an undeclared
name is defined with the extracted value and constness; a declared name is a
conflict, resolved by the caller-supplied `resolver` (the interactive menu in
the source). -/
def load_line (resolver : ConflictInfo → Resolution) (env : EnvT) (line : String) : EnvT :=
  let s0 : IStream := ⟨lineWords line, false⟩
  let (s1, name) := extractStr s0
  let (s2, _eq1) := extractStr s1
  let (s3, value) := extractQ s2
  let (s4, _icLabel) := extractStr s3
  let (s5, _eq2) := extractStr s4
  let (_s6, ic) := extractInt s5
  if name = "" then env
  else if ¬ is_declared env name then define_name env name value (ic ≠ 0)
  else
    match envLookup env name with
    | some old => resolve_conflict env name value (ic ≠ 0) (resolver ⟨name, old, value, ic ≠ 0⟩)
    | Option.none => env

/-- The body loop of `load_env` over the lines after the precision header:
every line is processed in order, whatever happened on earlier lines. -/
def load_lines (resolver : ConflictInfo → Resolution) (env : EnvT)
    (lines : List String) : EnvT :=
  lines.foldl (load_line resolver) env

/-! ### Helper lemmas -/

theorem envLookup_mapInsert_ne (env : EnvT) (k s : String) (v : Value) (h : s ≠ k) :
    envLookup (mapInsert env k v) s = envLookup env s := by
  induction env with
  | nil => simp [mapInsert, envLookup, h]
  | cons kv rest ih =>
    obtain ⟨k2, v2⟩ := kv
    by_cases h1 : strLt k k2
    · simp [mapInsert, h1, envLookup, h]
    · by_cases h2 : k = k2
      · subst h2
        simp [mapInsert, h1, envLookup, h]
      · simp only [mapInsert, Bool.not_eq_true] at h1 ⊢
        simp only [h1, Bool.false_eq_true, if_false, if_neg h2, envLookup]
        split
        · rfl
        · exact ih

theorem envLookup_envUpdateValue_ne (env : EnvT) (k s : String) (d : ℚ) (h : s ≠ k) :
    envLookup (envUpdateValue env k d) s = envLookup env s := by
  induction env with
  | nil => rfl
  | cons kv rest ih =>
    obtain ⟨k2, v2⟩ := kv
    by_cases h2 : k2 = k
    · subst h2
      simp only [envUpdateValue, if_pos rfl, envLookup, if_neg h]
    · simp only [envUpdateValue, if_neg h2, envLookup]
      split
      · rfl
      · exact ih

theorem is_declared_of_lookup (env : EnvT) (s : String) (v : Value)
    (h : envLookup env s = some v) : is_declared env s = true := by
  simp [is_declared, h]

theorem set_value_preserves_const (env : EnvT) (n s : String) (d : ℚ) (v : Value)
    (h : envLookup env s = some v) (hc : v.is_const = true) :
    envLookup (set_value env n d).1 s = some v := by
  unfold set_value
  rcases hn : envLookup env n with _ | w
  · simp [hn, h]
  · by_cases hs : s = n
    · subst hs
      rw [h] at hn
      injection hn with hvw
      subst hvw
      simp [h, hc]
    · simp only [hn, Option.isSome_some, if_true]
      by_cases hw : w.is_const
      · simp [hw, h]
      · simp [hw, envLookup_envUpdateValue_ne env n s d hs, h]

theorem truncQ_intCast (n : ℤ) : truncQ (n : ℚ) = n := by
  unfold truncQ
  split <;> simp

/-! ### C1 — assignment to an existing non-const name -/

/-- C1: the claim says `NAME = expression` on a declared non-const name
updates the stored value and returns it with no error.  The code does update
the value, but `set_value` then falls through to
`error("set: undefined name ", s)` (src line 380 — the mutation at line 378
has no early return), so the statement always raises.  Evaluating
`x = 5 ;` in an environment where `x = 3` (non-const): the environment is
updated to `x = 5` AND the statement returns the error
"set: undefined name x" instead of the value 5. -/
theorem C1_assignment_updates_then_raises :
    statement 20 ⟨⟨[], [Token.nameTok "x", Token.charTok '=', Token.number 5,
        Token.printTok]⟩, [("x", ⟨"x", 3, false⟩)]⟩ =
      (⟨⟨[Token.printTok], []⟩, [("x", ⟨"x", 5, false⟩)]⟩,
        .error "set: undefined name x") := rfl

/-! ### C3 — push_back and the next token -/

/-- C3 counterexample: with a previously pushed-back token (`number 1`) still
pending, `unget`-ting `number 2` does NOT make it the next token returned —
`unget` pushes to the BACK of the `std::queue` buffer while `get` pops the
FRONT, so the next `get` still yields `number 1`. -/
theorem C3_counterexample_pushback_not_next :
    (Token_stream.unget ⟨[Token.number 1], []⟩ (Token.number 2)).get =
      some (Token.number 1, ⟨[Token.number 2], []⟩) ∧
    Token.number 1 ≠ Token.number 2 := by
  refine ⟨rfl, ?_⟩
  intro h
  injection h with h1
  norm_num at h1

/-- C3 amended: `push_back` appends the token to the back of the pending
FIFO queue.  When no pushed-back token is pending the pushed token is indeed
the next one returned; in general pushed-back tokens come back in push
(FIFO) order, before any further input. -/
theorem C3_pushback_fifo_amended :
    (∀ (ts : Token_stream) (t : Token), ts.buffer = [] →
      (ts.unget t).get = some (t, ⟨[], ts.input⟩)) ∧
    (∀ (ts : Token_stream) (t u : Token) (rest : List Token), ts.buffer = u :: rest →
      (ts.unget t).get = some (u, ⟨rest ++ [t], ts.input⟩)) := by
  constructor
  · intro ts t h
    obtain ⟨buf, inp⟩ := ts
    simp at h
    subst h
    rfl
  · intro ts t u rest h
    obtain ⟨buf, inp⟩ := ts
    simp at h
    subst h
    rfl

/-- Witness for `C3_pushback_fifo_amended` at concrete streams. -/
theorem C3_pushback_fifo_amended_witness :
    (Token_stream.unget ⟨[], [Token.printTok]⟩ (Token.number 3)).get =
      some (Token.number 3, ⟨[], [Token.printTok]⟩) ∧
    (Token_stream.unget ⟨[Token.number 1], []⟩ (Token.number 2)).get =
      some (Token.number 1, ⟨[Token.number 2], []⟩) :=
  ⟨C3_pushback_fifo_amended.1 ⟨[], [Token.printTok]⟩ (Token.number 3) rfl,
   C3_pushback_fifo_amended.2 ⟨[Token.number 1], []⟩ (Token.number 2) (Token.number 1) [] rfl⟩

/-! ### C4 — load-conflict resolution -/

/-- C4: resolving the load conflict for line `x = 5 is_const = 0` against an
environment where `x = 3` (non-const): keep leaves `x = 3` and adds nothing;
overwrite sets `x = 5` with the file's constness; rename leaves `x = 3` and
defines the file value under the first undeclared name of the sequence
`x_file`, `x_file1`, … — `x_file` when it is free, `x_file1` when `x_file`
is already taken. -/
theorem C4_conflict_resolution :
    load_line (fun _ => .keep) [("x", ⟨"x", 3, false⟩)] "x = 5 is_const = 0" =
      [("x", ⟨"x", 3, false⟩)] ∧
    load_line (fun _ => .overwrite) [("x", ⟨"x", 3, false⟩)] "x = 5 is_const = 0" =
      [("x", ⟨"x", 5, false⟩)] ∧
    load_line (fun _ => .rename) [("x", ⟨"x", 3, false⟩)] "x = 5 is_const = 0" =
      [("x", ⟨"x", 3, false⟩), ("x_file", ⟨"x_file", 5, false⟩)] ∧
    load_line (fun _ => .rename)
        [("x", ⟨"x", 3, false⟩), ("x_file", ⟨"x_file", 7, false⟩)] "x = 5 is_const = 0" =
      [("x", ⟨"x", 3, false⟩), ("x_file", ⟨"x_file", 7, false⟩),
        ("x_file1", ⟨"x_file1", 5, false⟩)] := by
  refine ⟨by decide, by decide, by decide, by decide⟩

/-! ### C5 — function-call arity dispatch -/

/-- C5: `pow(2,10)` evaluates to `1024`; `pow(2)` fails with the message
"pow needs two arguments"; `sin(0,1)` (for any unary function value carried
by the `sin` token) fails with the message "sin needs only one argument". -/
theorem C5_function_arity_dispatch :
    (expression 20 [] ⟨[], [Token.fnTok "pow" Option.none, Token.charTok '(',
        Token.number 2, Token.charTok ',', Token.number 10, Token.charTok ')',
        Token.printTok]⟩).2 = .ok 1024 ∧
    (expression 20 [] ⟨[], [Token.fnTok "pow" Option.none, Token.charTok '(',
        Token.number 2, Token.charTok ')', Token.printTok]⟩).2 =
      .error "pow needs two arguments" ∧
    ∀ f : ℚ → ℚ, (expression 20 [] ⟨[], [Token.fnTok "sin" (some f), Token.charTok '(',
        Token.number 0, Token.charTok ',', Token.number 1, Token.charTok ')',
        Token.printTok]⟩).2 = .error "sin needs only one argument" := by
  refine ⟨?_, rfl, fun f => rfl⟩
  rw [show (1024 : ℚ) = powQ 2 10 from by simp [powQ]; norm_num]
  rfl

/-! ### C10 — set precision range check -/

/-- C10: `set precision N` with an integer `N` outside `[0, 20]` fails with
the range error and leaves the current precision unchanged; with `N` inside
the range the precision becomes `N`. -/
theorem C10_set_precision_range (N : ℤ) (prec : ℤ) (rest : List Token) :
    ((N < 0 ∨ 20 < N) →
      set_precision_cmd ⟨[], Token.number (N : ℚ) :: rest⟩ prec =
        (⟨[], rest⟩, prec, .error "Precision must be between 0 and 20")) ∧
    (0 ≤ N → N ≤ 20 →
      set_precision_cmd ⟨[], Token.number (N : ℚ) :: rest⟩ prec =
        (⟨[], rest⟩, N, .ok ())) := by
  constructor
  · intro h
    simp only [set_precision_cmd, Token_stream.get, truncQ_intCast]
    rw [if_pos h]
  · intro h1 h2
    simp only [set_precision_cmd, Token_stream.get, truncQ_intCast]
    rw [if_neg (by omega)]

/-- Witness for `C10_set_precision_range`: `N = 21` is rejected keeping the
old precision 6, `N = 7` is installed. -/
theorem C10_set_precision_range_witness :
    set_precision_cmd ⟨[], [Token.number ((21 : ℤ) : ℚ)]⟩ 6 =
      (⟨[], []⟩, 6, .error "Precision must be between 0 and 20") ∧
    set_precision_cmd ⟨[], [Token.number ((7 : ℤ) : ℚ)]⟩ 6 =
      (⟨[], []⟩, 7, .ok ()) :=
  ⟨(C10_set_precision_range 21 6 []).1 (by omega),
   (C10_set_precision_range 7 6 []).2 (by omega) (by omega)⟩

/-! ### C2 — lenient line parsing on load -/

/-- C2 counterexample: the non-empty line `garbage` does not parse
positionally as `name = value is_const = 0/1`, yet it is NOT skipped: the
load loop only tests `name.empty()`, so the line defines an entry named
`garbage` (the remaining extractions fail, leaving the value/constness
variables at whatever they held). -/
theorem C2_counterexample_malformed_line_defines_entry :
    is_declared (load_line (fun _ => .keep) [] "garbage") "garbage" = true ∧
    load_line (fun _ => .keep) ([] : EnvT) "garbage" ≠ [] := by
  refine ⟨by decide, by decide⟩

/-- C2 amended: only a line with no extractable first field (a blank /
whitespace-only line) is skipped; a malformed line whose first field extracts
still defines an entry under that field; in every case the remaining lines
are still processed. -/
theorem C2_lenient_load_amended :
    (∀ (resolver : ConflictInfo → Resolution) (env : EnvT) (line : String),
      lineWords line = [] → load_line resolver env line = env) ∧
    is_declared (load_line (fun _ => .keep) [] "garbage") "garbage" = true ∧
    envLookup (load_lines (fun _ => .keep) [] ["garbage", "y = 2 is_const = 1"]) "y" =
      some ⟨"y", 2, true⟩ := by
  refine ⟨?_, by decide, by decide⟩
  intro resolver env line h
  simp [load_line, h, extractStr, extractQ, extractInt]

/-- Witness for `C2_lenient_load_amended`: the empty line is skipped. -/
theorem C2_lenient_load_amended_witness :
    load_line (fun _ => .keep) [("x", ⟨"x", 3, false⟩)] "" = [("x", ⟨"x", 3, false⟩)] :=
  C2_lenient_load_amended.1 (fun _ => .keep) [("x", ⟨"x", 3, false⟩)] "" (by decide)

/-! ### C9 — save format -/

theorem fixedDigitChars_length (p : ℕ) : ∀ m : ℕ, (fixedDigitChars m p).length = p := by
  induction p with
  | zero => intro m; rfl
  | succ q ih => intro m; simp [fixedDigitChars, ih]

theorem fracStr_length (q : ℚ) (p : ℕ) : (fracStr q p).length = p := by
  show (String.mk (fixedDigitChars (roundMag q p % 10 ^ p) p)).length = p
  show (fixedDigitChars (roundMag q p % 10 ^ p) p).length = p
  exact fixedDigitChars_length p _

/-- C9 counterexample: saving an EMPTY environment does not write the header
line — `save_env` rejects an empty environment with an error and writes
nothing (src lines 553–555). -/
theorem C9_counterexample_empty_env_save_fails :
    save_env_lines [] 6 = .error "\nsave env: No variables or constants to save.\n" := rfl

/-- C9 amended: saving a NON-EMPTY environment at save-precision `P` writes
exactly one header line `Precision = P` followed by one line per entry in the
environment's iteration order; each entry value is rendered in fixed-point
notation with exactly `P` fractional digits (no decimal point when `P = 0`)
and the constness is written as `0` or `1`.  Saving an empty environment
fails with an error and writes nothing. -/
theorem C9_save_format_amended (env : EnvT) (P : ℕ) (h : env ≠ []) :
    save_env_lines env P = .ok (("Precision = " ++ toString P) :: env.map (entryLine P)) ∧
    (∀ lines, save_env_lines env P = .ok lines →
      lines.length = env.length + 1 ∧
      lines.head? = some ("Precision = " ++ toString P) ∧
      ∀ i, lines.get? (i + 1) = (env.get? i).map (entryLine P)) ∧
    (∀ kv : String × Value, 0 < P →
      entryLine P kv = kv.1 ++ " = " ++ (intStr kv.2.value P ++ ("." ++ fracStr kv.2.value P))
        ++ " is_const = " ++ (if kv.2.is_const then "1" else "0") ∧
      (fracStr kv.2.value P).length = P) := by
  refine ⟨by simp [save_env_lines, h], ?_, ?_⟩
  · intro lines hl
    rw [save_env_lines, if_neg h] at hl
    injection hl with hl
    subst hl
    refine ⟨by simp, rfl, ?_⟩
    intro i
    simp [List.get?_map]
  · intro kv hP
    refine ⟨?_, fracStr_length _ _⟩
    simp [entryLine, formatFixed, Nat.pos_iff_ne_zero.mp hP]

/-- Witness for `C9_save_format_amended` at a two-entry environment and
precision 2. -/
theorem C9_save_format_amended_witness :
    save_env_lines [("pi", ⟨"pi", 3.14, true⟩), ("x", ⟨"x", 5, false⟩)] 2 =
      .ok ["Precision = 2", "pi = 3.14 is_const = 1", "x = 5.00 is_const = 0"] := by
  have h := (C9_save_format_amended [("pi", ⟨"pi", 3.14, true⟩), ("x", ⟨"x", 5, false⟩)] 2
    (by simp)).1
  rw [h]
  have h1 : roundMag (3.14 : ℚ) 2 = 314 := by
    rw [roundMag, show |(3.14 : ℚ)| * 10 ^ 2 = ((314 : ℤ) : ℚ) from by
      rw [abs_of_nonneg (by norm_num)]
      norm_num, round_intCast]
    rfl
  have h2 : roundMag (5 : ℚ) 2 = 500 := by
    rw [roundMag, show |(5 : ℚ)| * 10 ^ 2 = ((500 : ℤ) : ℚ) from by
      rw [abs_of_nonneg (by norm_num)]
      norm_num, round_intCast]
    rfl
  simp only [List.map_cons, List.map_nil, entryLine, formatFixed, intStr, fracStr, h1, h2]
  refine congrArg Except.ok ?_
  have h3 : ¬ ((3.14 : ℚ) < 0) := by norm_num
  have h4 : ¬ ((5 : ℚ) < 0) := by norm_num
  simp only [if_neg h3, if_neg h4]
  rfl

/-! ### C6 — division and modulo by zero -/

/-- C6: for every pair of numeric operands, division and modulo fail with
"divide by zero" exactly when the right operand is `0`, regardless of the
left operand; otherwise they produce the quotient / floating-point
remainder. -/
theorem C6_divide_modulo_by_zero (a b : ℚ) (env : EnvT) (fuel : ℕ) (h : 6 ≤ fuel) :
    (expression fuel env ⟨[], [Token.number a, Token.charTok '/', Token.number b,
        Token.printTok]⟩ =
      if b = 0 then (⟨[], [Token.printTok]⟩, .error "divide by zero")
      else (⟨[Token.printTok], []⟩, .ok (a / b))) ∧
    (expression fuel env ⟨[], [Token.number a, Token.charTok '%', Token.number b,
        Token.printTok]⟩ =
      if b = 0 then (⟨[], [Token.printTok]⟩, .error "divide by zero")
      else (⟨[Token.printTok], []⟩, .ok (fmodQ a b))) := by
  obtain ⟨f, rfl⟩ : ∃ f, fuel = f + 6 := ⟨fuel - 6, by omega⟩
  by_cases hb : b = 0
  · subst hb
    simp [expression, term, primary, termLoop, exprLoop, Token_stream.get,
      Token_stream.unget, Token.is_symbol, Token.is_function]
  · simp [expression, term, primary, termLoop, exprLoop, Token_stream.get,
      Token_stream.unget, Token.is_symbol, Token.is_function, hb]

/-- Witness for `C6_divide_modulo_by_zero`: `5 / 0` fails with
"divide by zero" while `0 / 5` evaluates to `0`. -/
theorem C6_divide_modulo_by_zero_witness :
    expression 6 [] ⟨[], [Token.number 5, Token.charTok '/', Token.number 0,
        Token.printTok]⟩ = (⟨[], [Token.printTok]⟩, .error "divide by zero") ∧
    expression 6 [] ⟨[], [Token.number 0, Token.charTok '/', Token.number 5,
        Token.printTok]⟩ = (⟨[Token.printTok], []⟩, .ok 0) := by
  constructor
  · have h := (C6_divide_modulo_by_zero 5 0 [] 6 (by omega)).1
    simpa using h
  · have h := (C6_divide_modulo_by_zero 0 5 [] 6 (by omega)).1
    rw [if_neg (by norm_num)] at h
    simpa using h

/-! ### C7 — const entries are immutable under statements -/

theorem define_name_preserves (env : EnvT) (n s : String) (d : ℚ) (c : Bool) (v : Value)
    (h : envLookup env s = some v) (hn : ¬ is_declared env n = true) :
    envLookup (define_name env n d c) s = some v := by
  have hsn : s ≠ n := by
    intro he
    subst he
    rw [is_declared, h] at hn
    simp at hn
  rw [define_name, envLookup_mapInsert_ne env n s _ hsn, h]

theorem assign_preserves_const (fuel : ℕ) (st : CalcState) (s : String) (v : Value)
    (h : envLookup st.env s = some v) (hc : v.is_const = true) :
    envLookup ((assign fuel st).1).env s = some v := by
  rcases hg : st.ts.get with _ | ⟨t, ts1⟩
  · simp [assign, hg, h]
  · cases t with
    | nameTok name =>
      by_cases hcn : is_constant st.env name
      · simp [assign, hg, hcn, h]
      · rcases hg2 : ts1.get with _ | ⟨t2, ts2⟩
        · simp [assign, hg, hcn, hg2, h]
        · by_cases ht2 : t2.is_symbol '='
          · rcases hE : expression fuel st.env ts2 with ⟨ts3, r⟩
            rcases r with e | d
            · simp [assign, hg, hcn, hg2, ht2, hE, h]
            · by_cases hd : is_declared st.env name
              · rcases hsv : set_value st.env name d with ⟨env2, r2⟩
                have hp := set_value_preserves_const st.env name s d v h hc
                rw [hsv] at hp
                rcases r2 with e2 | u2
                · simp [assign, hg, hcn, hg2, ht2, hE, hd, hsv]
                  exact hp
                · simp [assign, hg, hcn, hg2, ht2, hE, hd, hsv]
                  exact hp
              · simp [assign, hg, hcn, hg2, ht2, hE, hd]
                exact define_name_preserves st.env name s d false v h hd
          · simp [assign, hg, hcn, hg2, ht2, h]
    | noneTok => simp [assign, hg, h]
    | quitTok => simp [assign, hg, h]
    | printTok => simp [assign, hg, h]
    | number q => simp [assign, hg, h]
    | constTok => simp [assign, hg, h]
    | charTok c => simp [assign, hg, h]
    | helpTok => simp [assign, hg, h]
    | fnTok fs ff => simp [assign, hg, h]
    | precisionTok => simp [assign, hg, h]
    | setPrecisionTok => simp [assign, hg, h]
    | showEnvTok => simp [assign, hg, h]
    | saveEnvTok => simp [assign, hg, h]
    | loadEnvTok => simp [assign, hg, h]

theorem constant_assign_preserves_const (fuel : ℕ) (st : CalcState) (s : String) (v : Value)
    (h : envLookup st.env s = some v) (hc : v.is_const = true) :
    envLookup ((constant_assign fuel st).1).env s = some v := by
  rcases hg : st.ts.get with _ | ⟨t, ts1⟩
  · simp [constant_assign, hg, h]
  · cases t with
    | nameTok name =>
      by_cases hd : is_declared st.env name
      · simp [constant_assign, hg, hd, h]
      · rcases hg2 : ts1.get with _ | ⟨t2, ts2⟩
        · simp [constant_assign, hg, hd, hg2, h]
        · by_cases ht2 : t2.is_symbol '='
          · rcases hE : expression fuel st.env ts2 with ⟨ts3, r⟩
            rcases r with e | d
            · simp [constant_assign, hg, hd, hg2, ht2, hE, h]
            · simp [constant_assign, hg, hd, hg2, ht2, hE]
              exact define_name_preserves st.env name s d true v h hd
          · simp [constant_assign, hg, hd, hg2, ht2, h]
    | noneTok => simp [constant_assign, hg, h]
    | quitTok => simp [constant_assign, hg, h]
    | printTok => simp [constant_assign, hg, h]
    | number q => simp [constant_assign, hg, h]
    | constTok => simp [constant_assign, hg, h]
    | charTok c => simp [constant_assign, hg, h]
    | helpTok => simp [constant_assign, hg, h]
    | fnTok fs ff => simp [constant_assign, hg, h]
    | precisionTok => simp [constant_assign, hg, h]
    | setPrecisionTok => simp [constant_assign, hg, h]
    | showEnvTok => simp [constant_assign, hg, h]
    | saveEnvTok => simp [constant_assign, hg, h]
    | loadEnvTok => simp [constant_assign, hg, h]

theorem statement_preserves_const (fuel : ℕ) (st : CalcState) (s : String) (v : Value)
    (h : envLookup st.env s = some v) (hc : v.is_const = true) :
    envLookup ((statement fuel st).1).env s = some v := by
  rcases hg : st.ts.get with _ | ⟨t, ts1⟩
  · simp [statement, hg, h]
  · cases t with
    | constTok =>
      simp only [statement, hg]
      exact constant_assign_preserves_const fuel _ s v h hc
    | nameTok name =>
      rcases hg2 : ts1.get with _ | ⟨t2, ts2⟩
      · simp [statement, hg, hg2, h]
      · by_cases ht2 : t2.is_symbol '='
        · simp only [statement, hg, hg2, ht2, if_true]
          exact assign_preserves_const fuel _ s v h hc
        · rcases hE : expression fuel st.env ((ts2.unget (Token.nameTok name)).unget t2)
            with ⟨ts3, r⟩
          simp [statement, hg, hg2, ht2, hE, h]
    | noneTok =>
      rcases hE : expression fuel st.env (ts1.unget Token.noneTok) with ⟨ts3, r⟩
      simp [statement, hg, hE, h]
    | quitTok =>
      rcases hE : expression fuel st.env (ts1.unget Token.quitTok) with ⟨ts3, r⟩
      simp [statement, hg, hE, h]
    | printTok =>
      rcases hE : expression fuel st.env (ts1.unget Token.printTok) with ⟨ts3, r⟩
      simp [statement, hg, hE, h]
    | number q =>
      rcases hE : expression fuel st.env (ts1.unget (Token.number q)) with ⟨ts3, r⟩
      simp [statement, hg, hE, h]
    | charTok c =>
      rcases hE : expression fuel st.env (ts1.unget (Token.charTok c)) with ⟨ts3, r⟩
      simp [statement, hg, hE, h]
    | helpTok =>
      rcases hE : expression fuel st.env (ts1.unget Token.helpTok) with ⟨ts3, r⟩
      simp [statement, hg, hE, h]
    | fnTok fs ff =>
      rcases hE : expression fuel st.env (ts1.unget (Token.fnTok fs ff)) with ⟨ts3, r⟩
      simp [statement, hg, hE, h]
    | precisionTok =>
      rcases hE : expression fuel st.env (ts1.unget Token.precisionTok) with ⟨ts3, r⟩
      simp [statement, hg, hE, h]
    | setPrecisionTok =>
      rcases hE : expression fuel st.env (ts1.unget Token.setPrecisionTok) with ⟨ts3, r⟩
      simp [statement, hg, hE, h]
    | showEnvTok =>
      rcases hE : expression fuel st.env (ts1.unget Token.showEnvTok) with ⟨ts3, r⟩
      simp [statement, hg, hE, h]
    | saveEnvTok =>
      rcases hE : expression fuel st.env (ts1.unget Token.saveEnvTok) with ⟨ts3, r⟩
      simp [statement, hg, hE, h]
    | loadEnvTok =>
      rcases hE : expression fuel st.env (ts1.unget Token.loadEnvTok) with ⟨ts3, r⟩
      simp [statement, hg, hE, h]

/-- C7: a const entry's value is never changed by statement evaluation — for
every statement, a name mapped to a const entry maps to the same entry
afterwards; and concretely, after `const pi = 3.14;` the statement `pi = 1;`
fails with "pi constant cannot be modified" and `pi` still maps to `3.14`
(const). -/
theorem C7_const_entries_immutable :
    (∀ (fuel : ℕ) (st : CalcState) (s : String) (v : Value),
      envLookup st.env s = some v → v.is_const = true →
      envLookup ((statement fuel st).1).env s = some v) ∧
    statement 20 ⟨⟨[], [Token.constTok, Token.nameTok "pi", Token.charTok '=',
        Token.number 3.14, Token.printTok]⟩, []⟩ =
      (⟨⟨[Token.printTok], []⟩, [("pi", ⟨"pi", 3.14, true⟩)]⟩, .ok 3.14) ∧
    (statement 20 ⟨⟨[], [Token.nameTok "pi", Token.charTok '=', Token.number 1,
        Token.printTok]⟩, [("pi", ⟨"pi", 3.14, true⟩)]⟩).2 =
      .error "pi constant cannot be modified" ∧
    (statement 20 ⟨⟨[], [Token.nameTok "pi", Token.charTok '=', Token.number 1,
        Token.printTok]⟩, [("pi", ⟨"pi", 3.14, true⟩)]⟩).1.env =
      [("pi", ⟨"pi", 3.14, true⟩)] :=
  ⟨statement_preserves_const, rfl, rfl, rfl⟩

/-- Witness for `C7_const_entries_immutable`: the invariant applied to the
concrete statement `pi = 1;` over an environment where `pi` is const. -/
theorem C7_const_entries_immutable_witness :
    envLookup ((statement 20 ⟨⟨[], [Token.nameTok "pi", Token.charTok '=',
        Token.number 1, Token.printTok]⟩, [("pi", ⟨"pi", 3.14, true⟩)]⟩).1).env "pi" =
      some ⟨"pi", 3.14, true⟩ :=
  C7_const_entries_immutable.1 20 _ "pi" ⟨"pi", 3.14, true⟩ rfl rfl

/-! ### C8 — grammar-correct evaluation of pure arithmetic expressions

One-step unfolding equations for the parser loops (all definitional), then
the parser/semantics agreement theorem by mutual induction on the grammar
family, and the claim itself. -/

theorem exprLoop_buffer_one (f : ℕ) (env : EnvT) (acc : ℚ) (u : Token) (l : List Token) :
    exprLoop (f + 1) env acc ⟨[u], l⟩ = exprLoop (f + 1) env acc ⟨[], u :: l⟩ := rfl

theorem expression_step (f : ℕ) (env : EnvT) (ts : Token_stream) :
    expression (f + 1) env ts =
      match term f env ts with
      | (ts1, .error e) => (ts1, .error e)
      | (ts1, .ok left) => exprLoop f env left ts1 := rfl

theorem term_step (f : ℕ) (env : EnvT) (ts : Token_stream) :
    term (f + 1) env ts =
      match primary f env ts with
      | (ts1, .error e) => (ts1, .error e)
      | (ts1, .ok left) => termLoop f env left ts1 := rfl

theorem primary_step_num (f : ℕ) (env : EnvT) (q : ℚ) (inp : List Token) :
    primary (f + 1) env ⟨[], Token.number q :: inp⟩ = (⟨[], inp⟩, .ok q) := rfl

theorem primary_step_lparen (f : ℕ) (env : EnvT) (inp : List Token) :
    primary (f + 1) env ⟨[], Token.charTok '(' :: inp⟩ =
      (match expression f env ⟨[], inp⟩ with
      | (ts2, .error e) => (ts2, .error e)
      | (ts2, .ok d) =>
        match ts2.get with
        | Option.none => (ts2, .error eofMsg)
        | some (t2, ts3) =>
          if ¬ t2.is_symbol ')' then (ts3, .error "\x27(\x27 expected")
          else (ts3, .ok d)) := rfl

theorem primary_step_neg (f : ℕ) (env : EnvT) (inp : List Token) :
    primary (f + 1) env ⟨[], Token.charTok '-' :: inp⟩ =
      (match primary f env ⟨[], inp⟩ with
      | (ts2, .ok d) => (ts2, .ok (-d))
      | (ts2, .error e) => (ts2, .error e)) := rfl

theorem primary_step_pos (f : ℕ) (env : EnvT) (inp : List Token) :
    primary (f + 1) env ⟨[], Token.charTok '+' :: inp⟩ = primary f env ⟨[], inp⟩ := rfl

theorem termLoop_step_mul (f : ℕ) (env : EnvT) (left : ℚ) (inp : List Token) :
    termLoop (f + 1) env left ⟨[], Token.charTok '*' :: inp⟩ =
      (match primary f env ⟨[], inp⟩ with
      | (ts2, .error e) => (ts2, .error e)
      | (ts2, .ok d) => termLoop f env (left * d) ts2) := rfl

theorem termLoop_step_div (f : ℕ) (env : EnvT) (left : ℚ) (inp : List Token) :
    termLoop (f + 1) env left ⟨[], Token.charTok '/' :: inp⟩ =
      (match primary f env ⟨[], inp⟩ with
      | (ts2, .error e) => (ts2, .error e)
      | (ts2, .ok d) =>
        if d = 0 then (ts2, .error "divide by zero")
        else termLoop f env (left / d) ts2) := rfl

theorem termLoop_step_mod (f : ℕ) (env : EnvT) (left : ℚ) (inp : List Token) :
    termLoop (f + 1) env left ⟨[], Token.charTok '%' :: inp⟩ =
      (match primary f env ⟨[], inp⟩ with
      | (ts2, .error e) => (ts2, .error e)
      | (ts2, .ok d) =>
        if d = 0 then (ts2, .error "divide by zero")
        else termLoop f env (fmodQ left d) ts2) := rfl

theorem termLoop_step_stop (f : ℕ) (env : EnvT) (left : ℚ) (t : Token) (inp : List Token)
    (h1 : t.is_symbol '*' = false) (h2 : t.is_symbol '/' = false)
    (h3 : t.is_symbol '%' = false) :
    termLoop (f + 1) env left ⟨[], t :: inp⟩ = (⟨[t], inp⟩, .ok left) := by
  simp [termLoop, Token_stream.get, h1, h2, h3, Token_stream.unget]

theorem exprLoop_step_add (f : ℕ) (env : EnvT) (left : ℚ) (inp : List Token) :
    exprLoop (f + 1) env left ⟨[], Token.charTok '+' :: inp⟩ =
      (match term f env ⟨[], inp⟩ with
      | (ts2, .error e) => (ts2, .error e)
      | (ts2, .ok d) => exprLoop f env (left + d) ts2) := rfl

theorem exprLoop_step_sub (f : ℕ) (env : EnvT) (left : ℚ) (inp : List Token) :
    exprLoop (f + 1) env left ⟨[], Token.charTok '-' :: inp⟩ =
      (match term f env ⟨[], inp⟩ with
      | (ts2, .error e) => (ts2, .error e)
      | (ts2, .ok d) => exprLoop f env (left - d) ts2) := rfl

theorem exprLoop_step_stop (f : ℕ) (env : EnvT) (left : ℚ) (t : Token) (inp : List Token)
    (h1 : t.is_symbol '+' = false) (h2 : t.is_symbol '-' = false) :
    exprLoop (f + 1) env left ⟨[], t :: inp⟩ = (⟨[t], inp⟩, .ok left) := by
  simp [exprLoop, Token_stream.get, h1, h2, Token_stream.unget]

mutual

theorem parseP_ok (p : PExp) (fuel : ℕ) : ∀ (env : EnvT) (rest : List Token),
    safeP p = true → sizeP p < fuel →
    primary fuel env ⟨[], flatP p ++ rest⟩ = (⟨[], rest⟩, .ok (denoP p)) := by
  intro env rest hs hf
  obtain ⟨f, rfl⟩ : ∃ f, fuel = f + 1 := ⟨fuel - 1, by omega⟩
  cases p with
  | num q =>
    simp only [flatP, List.singleton_append]
    rw [primary_step_num]
    rfl
  | paren e =>
    have hsE : safeE e = true := by simpa [safeP] using hs
    have hfE : sizeE e < f := by simp [sizeP] at hf; omega
    simp only [flatP, List.cons_append, List.append_assoc, List.singleton_append, List.nil_append]
    rw [primary_step_lparen,
      parseE_ok e f env (Token.charTok ')') rest hsE hfE rfl rfl rfl rfl rfl]
    rfl
  | neg p1 =>
    have hs1 : safeP p1 = true := by simpa [safeP] using hs
    have hf1 : sizeP p1 < f := by simp [sizeP] at hf; omega
    simp only [flatP, List.cons_append]
    rw [primary_step_neg, parseP_ok p1 f env rest hs1 hf1]
    rfl
  | pos p1 =>
    have hs1 : safeP p1 = true := by simpa [safeP] using hs
    have hf1 : sizeP p1 < f := by simp [sizeP] at hf; omega
    simp only [flatP, List.cons_append]
    rw [primary_step_pos, parseP_ok p1 f env rest hs1 hf1]
    rfl
termination_by fuel
decreasing_by all_goals omega

theorem parseTR_ok (r : TRest) (fuel : ℕ) : ∀ (env : EnvT) (acc : ℚ) (u : Token)
    (rest : List Token),
    safeTR r = true → sizeTR r < fuel →
    u.is_symbol '*' = false → u.is_symbol '/' = false → u.is_symbol '%' = false →
    termLoop fuel env acc ⟨[], flatTR r ++ u :: rest⟩ = (⟨[u], rest⟩, .ok (denoTR acc r)) := by
  intro env acc u rest hs hf h1 h2 h3
  obtain ⟨f, rfl⟩ : ∃ f, fuel = f + 1 := ⟨fuel - 1, by omega⟩
  cases r with
  | nil =>
    simp only [flatTR, List.nil_append]
    rw [termLoop_step_stop f env acc u rest h1 h2 h3]
    rfl
  | cons op p r2 =>
    have hs' := hs
    simp only [safeTR, Bool.and_eq_true] at hs'
    obtain ⟨⟨hop, hsp⟩, hsr⟩ := hs'
    have hfp : sizeP p < f := by simp [sizeTR] at hf; omega
    have hfr : sizeTR r2 < f := by simp [sizeTR] at hf; omega
    cases op with
    | mul =>
      simp only [flatTR, MOp.lexeme, List.cons_append, List.append_assoc]
      rw [termLoop_step_mul, parseP_ok p f env (flatTR r2 ++ u :: rest) hsp hfp]
      dsimp only
      rw [parseTR_ok r2 f env (acc * denoP p) u rest hsr hfr h1 h2 h3]
      rfl
    | div =>
      have hne : denoP p ≠ 0 := of_decide_eq_true hop
      simp only [flatTR, MOp.lexeme, List.cons_append, List.append_assoc]
      rw [termLoop_step_div, parseP_ok p f env (flatTR r2 ++ u :: rest) hsp hfp]
      dsimp only
      rw [if_neg hne, parseTR_ok r2 f env (acc / denoP p) u rest hsr hfr h1 h2 h3]
      rfl
    | mod =>
      have hne : denoP p ≠ 0 := of_decide_eq_true hop
      simp only [flatTR, MOp.lexeme, List.cons_append, List.append_assoc]
      rw [termLoop_step_mod, parseP_ok p f env (flatTR r2 ++ u :: rest) hsp hfp]
      dsimp only
      rw [if_neg hne, parseTR_ok r2 f env (fmodQ acc (denoP p)) u rest hsr hfr h1 h2 h3]
      rfl
termination_by fuel
decreasing_by all_goals omega

theorem parseT_ok (t : TExp) (fuel : ℕ) : ∀ (env : EnvT) (u : Token) (rest : List Token),
    safeT t = true → sizeT t < fuel →
    u.is_symbol '*' = false → u.is_symbol '/' = false → u.is_symbol '%' = false →
    term fuel env ⟨[], flatT t ++ u :: rest⟩ = (⟨[u], rest⟩, .ok (denoT t)) := by
  intro env u rest hs hf h1 h2 h3
  obtain ⟨f, rfl⟩ : ∃ f, fuel = f + 1 := ⟨fuel - 1, by omega⟩
  cases t with
  | mk p r =>
    have hs' := hs
    simp only [safeT, Bool.and_eq_true] at hs'
    obtain ⟨hsp, hsr⟩ := hs'
    have hfp : sizeP p < f := by simp [sizeT] at hf; omega
    have hfr : sizeTR r < f := by simp [sizeT] at hf; omega
    simp only [flatT, List.append_assoc]
    rw [term_step, parseP_ok p f env (flatTR r ++ u :: rest) hsp hfp]
    dsimp only
    rw [parseTR_ok r f env (denoP p) u rest hsr hfr h1 h2 h3]
    rfl
termination_by fuel
decreasing_by all_goals omega

theorem parseER_ok (r : ERest) (fuel : ℕ) : ∀ (env : EnvT) (acc : ℚ) (u : Token)
    (rest : List Token),
    safeER r = true → sizeER r < fuel →
    u.is_symbol '+' = false → u.is_symbol '-' = false → u.is_symbol '*' = false →
    u.is_symbol '/' = false → u.is_symbol '%' = false →
    exprLoop fuel env acc ⟨[], flatER r ++ u :: rest⟩ = (⟨[u], rest⟩, .ok (denoER acc r)) := by
  intro env acc u rest hs hf h1 h2 h3 h4 h5
  obtain ⟨f, rfl⟩ : ∃ f, fuel = f + 1 := ⟨fuel - 1, by omega⟩
  cases r with
  | nil =>
    simp only [flatER, List.nil_append]
    rw [exprLoop_step_stop f env acc u rest h1 h2]
    rfl
  | cons op t r2 =>
    have hs' := hs
    simp only [safeER, Bool.and_eq_true] at hs'
    obtain ⟨hst, hsr⟩ := hs'
    have hft : sizeT t < f := by simp [sizeER] at hf; omega
    have hfr : sizeER r2 < f := by simp [sizeER] at hf; omega
    obtain ⟨u2, l2, hsplit, hu1, hu2, hu3⟩ :
        ∃ u2 l2, flatER r2 ++ u :: rest = u2 :: l2 ∧ u2.is_symbol '*' = false ∧
          u2.is_symbol '/' = false ∧ u2.is_symbol '%' = false := by
      cases r2 with
      | nil => exact ⟨u, rest, rfl, h3, h4, h5⟩
      | cons op2 t2 r3 =>
        cases op2 with
        | add => exact ⟨_, _, rfl, rfl, rfl, rfl⟩
        | sub => exact ⟨_, _, rfl, rfl, rfl, rfl⟩
    cases op with
    | add =>
      simp only [flatER, AOp.lexeme, List.cons_append, List.append_assoc]
      rw [exprLoop_step_add,
        show flatT t ++ (flatER r2 ++ u :: rest) = flatT t ++ u2 :: l2 from by rw [hsplit],
        parseT_ok t f env u2 l2 hst hft hu1 hu2 hu3]
      dsimp only
      obtain ⟨g, rfl⟩ : ∃ g, f = g + 1 := ⟨f - 1, by omega⟩
      rw [exprLoop_buffer_one, ← hsplit,
        parseER_ok r2 (g + 1) env (acc + denoT t) u rest hsr hfr h1 h2 h3 h4 h5]
      rfl
    | sub =>
      simp only [flatER, AOp.lexeme, List.cons_append, List.append_assoc]
      rw [exprLoop_step_sub,
        show flatT t ++ (flatER r2 ++ u :: rest) = flatT t ++ u2 :: l2 from by rw [hsplit],
        parseT_ok t f env u2 l2 hst hft hu1 hu2 hu3]
      dsimp only
      obtain ⟨g, rfl⟩ : ∃ g, f = g + 1 := ⟨f - 1, by omega⟩
      rw [exprLoop_buffer_one, ← hsplit,
        parseER_ok r2 (g + 1) env (acc - denoT t) u rest hsr hfr h1 h2 h3 h4 h5]
      rfl
termination_by fuel
decreasing_by all_goals omega

theorem parseE_ok (e : EExp) (fuel : ℕ) : ∀ (env : EnvT) (u : Token) (rest : List Token),
    safeE e = true → sizeE e < fuel →
    u.is_symbol '+' = false → u.is_symbol '-' = false → u.is_symbol '*' = false →
    u.is_symbol '/' = false → u.is_symbol '%' = false →
    expression fuel env ⟨[], flatE e ++ u :: rest⟩ = (⟨[u], rest⟩, .ok (denoE e)) := by
  intro env u rest hs hf h1 h2 h3 h4 h5
  obtain ⟨f, rfl⟩ : ∃ f, fuel = f + 1 := ⟨fuel - 1, by omega⟩
  cases e with
  | mk t r =>
    have hs' := hs
    simp only [safeE, Bool.and_eq_true] at hs'
    obtain ⟨hst, hsr⟩ := hs'
    have hft : sizeT t < f := by simp [sizeE] at hf; omega
    have hfr : sizeER r < f := by simp [sizeE] at hf; omega
    obtain ⟨u2, l2, hsplit, hu1, hu2, hu3⟩ :
        ∃ u2 l2, flatER r ++ u :: rest = u2 :: l2 ∧ u2.is_symbol '*' = false ∧
          u2.is_symbol '/' = false ∧ u2.is_symbol '%' = false := by
      cases r with
      | nil => exact ⟨u, rest, rfl, h3, h4, h5⟩
      | cons op2 t2 r3 =>
        cases op2 with
        | add => exact ⟨_, _, rfl, rfl, rfl, rfl⟩
        | sub => exact ⟨_, _, rfl, rfl, rfl, rfl⟩
    simp only [flatE, List.append_assoc]
    rw [expression_step,
      show flatT t ++ (flatER r ++ u :: rest) = flatT t ++ u2 :: l2 from by rw [hsplit],
      parseT_ok t f env u2 l2 hst hft hu1 hu2 hu3]
    dsimp only
    obtain ⟨g, rfl⟩ : ∃ g, f = g + 1 := ⟨f - 1, by omega⟩
    rw [exprLoop_buffer_one, ← hsplit,
      parseER_ok r (g + 1) env (denoT t) u rest hsr hfr h1 h2 h3 h4 h5]
    rfl
termination_by fuel
decreasing_by all_goals omega

end

/-- C8: for every well-formed expression built from numeric literals,
parentheses, unary `+`/`-` and the binary operators `+ - * / %` (described by
the grammar family `EExp`, with no division or modulo by zero), the parser's
evaluation equals the standard arithmetic semantics `denoE` in which `* / %`
bind tighter than `+ -` and same-precedence operators apply left to right;
concretely `2 + 3 * 4` evaluates to `14` and `(2 + 3) * 4` to `20`. -/
theorem C8_expression_grammar_correct :
    (∀ (e : EExp) (fuel : ℕ) (env : EnvT), safeE e = true → sizeE e < fuel →
      expression fuel env ⟨[], flatE e ++ [Token.printTok]⟩ =
        (⟨[Token.printTok], []⟩, .ok (denoE e))) ∧
    (expression 20 [] ⟨[], [Token.number 2, Token.charTok '+', Token.number 3,
        Token.charTok '*', Token.number 4, Token.printTok]⟩).2 = .ok 14 ∧
    (expression 20 [] ⟨[], [Token.charTok '(', Token.number 2, Token.charTok '+',
        Token.number 3, Token.charTok ')', Token.charTok '*', Token.number 4,
        Token.printTok]⟩).2 = .ok 20 := by
  refine ⟨?_, ?_, ?_⟩
  · intro e fuel env hs hf
    exact parseE_ok e fuel env Token.printTok [] hs hf rfl rfl rfl rfl rfl
  · rw [show (14 : ℚ) = 2 + 3 * 4 from by norm_num]
    rfl
  · rw [show (20 : ℚ) = (2 + 3) * 4 from by norm_num]
    rfl

/-- Witness for `C8_expression_grammar_correct`: the grammar tree of
`2 + 3 * 4` parses to `14`. -/
theorem C8_expression_grammar_correct_witness :
    expression 40 [] ⟨[], flatE (EExp.mk (TExp.mk (PExp.num 2) TRest.nil)
        (ERest.cons AOp.add (TExp.mk (PExp.num 3)
          (TRest.cons MOp.mul (PExp.num 4) TRest.nil)) ERest.nil)) ++
        [Token.printTok]⟩ =
      (⟨[Token.printTok], []⟩, .ok 14) := by
  have h := C8_expression_grammar_correct.1 (EExp.mk (TExp.mk (PExp.num 2) TRest.nil)
    (ERest.cons AOp.add (TExp.mk (PExp.num 3)
      (TRest.cons MOp.mul (PExp.num 4) TRest.nil)) ERest.nil)) 40 [] (by rfl) (by decide)
  rw [show (14 : ℚ) = denoE (EExp.mk (TExp.mk (PExp.num 2) TRest.nil)
      (ERest.cons AOp.add (TExp.mk (PExp.num 3)
        (TRest.cons MOp.mul (PExp.num 4) TRest.nil)) ERest.nil)) from by
    simp only [denoE, denoER, denoT, denoTR, denoP, AOp.apply, MOp.apply]
    norm_num]
  exact h
